import Mathlib

/-!
Shallow embedding of `src/webserver.py` (sedlacek-modules/webserver), a small
HTTP server with PUT upload support.  We model:

* the module-level path lock table `locks` and the `manage_locks` context
  manager (lines 48-63);
* the PUT handler `MyHTTPRequestHandler.do_PUT` (lines 116-161): framing
  selection, the modifier-driven open mode and lock discipline, the conflict
  check, the Content-Length executor and the chunked-transfer decoder;
* the `?plain` directory listing branch of `do_GET` (lines 105-106).

Bytes are modelled as `Nat` (ASCII values), byte streams as `List Nat`,
filesystem side effects as an explicit effect trace.  Where Python raises an
exception that `do_PUT` converts into a 500 response, the model records the
error explicitly.
-/

set_option autoImplicit false

namespace Webserver

/-! ### Path lock table (webserver.py lines 48-63)

`locks` is a dict mapping a path to a pair `(Lock(), counter)`.  We model the
table as an association list from path to the reference counter; the mutex
object itself carries no state that the claims depend on.  The module starts
with `locks = {}`, i.e. the empty table. -/

abbrev LockTable := List (String × Nat)

/-- Lookup of `locks.get(fspath)`: the reference counter stored for a path. -/
def tlookup : LockTable → String → Option Nat
  | [], _ => none
  | (q, c) :: t, p => if q = p then some c else tlookup t p

/-- Removal `del locks[fspath]` (deletes the entry for the path). -/
def terase : LockTable → String → LockTable
  | [], _ => []
  | (q, c) :: t, p => if q = p then terase t p else (q, c) :: terase t p

/-- Assignment `locks[fspath] = (filelock, c)`. -/
def tset (t : LockTable) (p : String) (c : Nat) : LockTable :=
  (p, c) :: terase t p

/-- The reference count of a path; 0 when the path has no entry. -/
def refcount (t : LockTable) (p : String) : Nat :=
  (tlookup t p).getD 0

/-- First half of `manage_locks` (lines 54-56): under the table guard, fetch
`locks.get(fspath, (Lock(), 0))` and store the pair with the counter
incremented. -/
def acquire (t : LockTable) (p : String) : LockTable :=
  tset t p ((tlookup t p).getD 0 + 1)

/-- Second half of `manage_locks` (lines 58-63): under the table guard, read
`locks[fspath]` (a `KeyError`, modelled as `none`, if the entry is absent);
decrement the counter if more requests are active for the path, otherwise
delete the entry. -/
def release (t : LockTable) (p : String) : Option LockTable :=
  match tlookup t p with
  | none => none
  | some c => some (if c > 1 then tset t p (c - 1) else terase t p)

/-- One lock-table operation: the acquire step or the release step of
`manage_locks`, for some path. -/
inductive LockOp where
  | acq (p : String)
  | rel (p : String)
deriving DecidableEq

/-- Run a sequence of lock-table operations from a starting table.  A release
of an absent path is a Python `KeyError` and aborts the run (`none`). -/
def runOps (t : LockTable) : List LockOp → Option LockTable
  | [] => some t
  | LockOp.acq p :: ops => runOps (acquire t p) ops
  | LockOp.rel p :: ops =>
    match release t p with
    | some t2 => runOps t2 ops
    | none => none

/-- Number of acquire steps for a given path in an operation sequence. -/
def countAcq (p : String) : List LockOp → Nat
  | [] => 0
  | LockOp.acq q :: ops => (if q = p then 1 else 0) + countAcq p ops
  | LockOp.rel _ :: ops => countAcq p ops

/-- Number of release steps for a given path in an operation sequence. -/
def countRel (p : String) : List LockOp → Nat
  | [] => 0
  | LockOp.acq _ :: ops => countRel p ops
  | LockOp.rel q :: ops => (if q = p then 1 else 0) + countRel p ops

/-- Every counter stored in the table is positive.  This holds for every
table reachable from the initial empty `locks` dict. -/
def goodTable (t : LockTable) : Prop :=
  ∀ p c, tlookup t p = some c → 0 < c

/-- Net effect of `with manage_locks(fspath):` on the lock table.
`manage_locks` (lines 52-63) is a `@contextmanager` generator whose `yield`
is not wrapped in `try`/`finally`.  Per Python semantics, when the body of
the `with` statement raises, `__exit__` throws the exception into the
generator at the `yield` point, so the release code after the `yield` does
not run; it runs only when the body exits without an exception (including an
early `return`). -/
def manageLocksRun (t : LockTable) (p : String) (bodyRaised : Bool) : LockTable :=
  let t1 := acquire t p
  if bodyRaised then t1 else (release t1 p).getD t1

/-! ### Byte streams

`self.rfile` is modelled as a list of byte values.  `readLine` models
`rfile.readline()` (returns everything up to and including the first newline
byte, or the whole rest at end of stream); `take n` models `rfile.read(n)`
for a buffered reader (at most `n` bytes, fewer only at end of stream). -/

/-- Model of `rfile.readline()`: the line including its terminating newline
byte (10), and the remaining stream. -/
def readLine : List Nat → List Nat × List Nat
  | [] => ([], [])
  | b :: rest =>
    if b = 10 then ([b], rest)
    else
      let p := readLine rest
      (b :: p.1, p.2)

/-- ASCII whitespace, as stripped by Python `bytes.strip()`. -/
def isWS (b : Nat) : Bool :=
  b = 32 || b = 9 || b = 10 || b = 13 || b = 11 || b = 12

/-- Model of `.strip()` on a byte string. -/
def stripWS (l : List Nat) : List Nat :=
  ((l.dropWhile isWS).reverse.dropWhile isWS).reverse

/-- The numeric value of one ASCII hexadecimal digit. -/
def hexDigitVal (b : Nat) : Option Nat :=
  if 48 ≤ b ∧ b ≤ 57 then some (b - 48)
  else if 97 ≤ b ∧ b ≤ 102 then some (b - 87)
  else if 65 ≤ b ∧ b ≤ 70 then some (b - 55)
  else none

/-- Accumulating hexadecimal parser over a digit list. -/
def goParse : Nat → List Nat → Option Nat
  | a, [] => some a
  | a, d :: ds =>
    match hexDigitVal d with
    | some v => goParse (a * 16 + v) ds
    | none => none

/-- Model of `int(x, 16)` on a stripped size line (lines 148 and 155):
`none` is the `ValueError` Python raises for an empty or non-hexadecimal
string.  Python additionally accepts an optional sign, an optional `0x`
prefix and underscore digit separators; no claim exercises those forms. -/
def parseHexList : List Nat → Option Nat
  | [] => none
  | d :: ds => goParse 0 (d :: ds)

/-- The error raised inside the chunked-decoding loop: the `ValueError` from
`int(line, 16)` on a malformed size line. -/
inductive ChunkError where
  | malformedSizeLine
deriving DecidableEq

/-- The chunked-transfer decoding loop of `do_PUT` (lines 148-155): read a
size line, parse it as hexadecimal, stop at size zero; otherwise read that
many payload bytes, discard one trailing line, and continue with the next
size line.  Returns the chunks written (in order) and the error, if any,
that aborted the loop. -/
def chunkedRead (s : List Nat) : List (List Nat) × Option ChunkError :=
  match h : parseHexList (stripWS (readLine s).1) with
  | none => ([], some ChunkError.malformedSizeLine)
  | some 0 => ([], none)
  | some (k + 1) =>
    let rest := (readLine s).2
    let q := chunkedRead ((readLine (rest.drop (k + 1))).2)
    (rest.take (k + 1) :: q.1, q.2)
termination_by s.length
decreasing_by
  have hle : ∀ u : List Nat, (readLine u).2.length ≤ u.length := by
    intro u
    induction u with
    | nil => simp [readLine]
    | cons b rest ih =>
      simp only [readLine]
      split
      · simp
      · simpa using Nat.le_succ_of_le ih
  have hs : s ≠ [] := by
    intro he
    subst he
    simp [readLine, stripWS, parseHexList] at *
  obtain ⟨b, u, rfl⟩ : ∃ b u, s = b :: u := by
    cases s with
    | nil => exact absurd rfl hs
    | cons b u => exact ⟨b, u, rfl⟩
  have hlt : (readLine (b :: u)).2.length < (b :: u).length := by
    simp only [readLine]
    split
    · simp
    · simpa using Nat.lt_succ_of_le (hle u)
  calc (readLine ((readLine (b :: u)).2.drop (k + 1))).2.length
      ≤ ((readLine (b :: u)).2.drop (k + 1)).length := hle _
    _ ≤ (readLine (b :: u)).2.length := by simp
    _ < (b :: u).length := hlt

/-- One ASCII hexadecimal digit character (lower case, as produced for the
reference encoder below). -/
def hexDigitChar (r : Nat) : Nat :=
  if r < 10 then 48 + r else 87 + r

/-- Hexadecimal digit expansion of a positive number, most significant digit
first, prepended to an accumulator. -/
def toHexCore : Nat → List Nat → List Nat
  | 0, acc => acc
  | n + 1, acc => toHexCore ((n + 1) / 16) (hexDigitChar ((n + 1) % 16) :: acc)
decreasing_by exact Nat.div_lt_self (Nat.succ_pos n) (by decide)

/-- Hexadecimal rendering of a number (`[48]` is the digit `0`). -/
def toHex (n : Nat) : List Nat :=
  if n = 0 then [48] else toHexCore n []

/-- Reference encoder for a chunked-transfer body: a hexadecimal size line,
the payload, and the trailing line after the payload, for each chunk. -/
def encodeChunk (c : List Nat) : List Nat :=
  toHex c.length ++ 10 :: (c ++ [10])

/-- Reference encoder for a whole chunked-transfer body, ending with the
zero-size terminator line. -/
def encodeChunked (chunks : List (List Nat)) : List Nat :=
  (chunks.map encodeChunk).flatten ++ (toHex 0 ++ [10])

/-! ### The PUT handler (webserver.py lines 116-161) -/

/-- The open mode of line 125: `'ab' if 'append' in keywords else 'wb'`. -/
inductive OpenMode where
  | ab
  | wb
deriving DecidableEq

/-- An inbound PUT request, after header parsing.  `translate_path` and
`urlparse` are collapsed: `path` stands for both `fspath` and
`parsed.path`.  `keywords` is the modifier set parsed from the query string
(line 124); `chunkedTE` is the test `'chunked' in
self.headers.get("transfer-encoding", "")` of line 118; `appendHeader` is
the test `"append" in self.headers` of line 156 (a membership test on the
HTTP header names, not on the query keywords); `body` is the raw byte
stream of `self.rfile`. -/
structure Request where
  path : String
  contentLength : Option Nat
  chunkedTE : Bool
  appendHeader : Bool
  keywords : List String
  body : List Nat
deriving DecidableEq

/-- A filesystem side effect of the handler, in program order. -/
inductive Effect where
  | makedirs
  | openFile (mode : OpenMode)
  | writeChunk (chunk : List Nat)
deriving DecidableEq

/-- The responses `do_PUT` can send.  The 500 body (a traceback dump,
line 159) is not modelled. -/
inductive Response where
  | r400 (body : String)
  | r409 (body : String)
  | r200 (body : String)
  | r500
deriving DecidableEq

/-- Whether a response is the 400 rejection. -/
def isR400 : Response → Bool
  | Response.r400 _ => true
  | _ => false

/-- The body of the 400 response of line 119. -/
def noFramingBody : String :=
  "No \"Content-Length\" header nor chunked encoding.\n"

/-- The body of the 409 response of line 138. -/
def conflictBody (path : String) : String :=
  "File \"" ++ path ++ "\" already exists.\nUse \"" ++ path ++
    "?overwrite\" or \"" ++ path ++ "?append\"\n"

/-- The body of the 200 response of line 156: the action word is `updated`
when a header named `append` is present in the HTTP headers, else
`uploaded`. -/
def successBody (path : String) (appendHeaderPresent : Bool) : String :=
  "File \"" ++ path ++ "\" " ++
    (if appendHeaderPresent then "updated" else "uploaded") ++ ".\n"

/-- Line 125: `mode = 'ab' if 'append' in keywords else 'wb'`. -/
def openModeOf (keywords : List String) : OpenMode :=
  if keywords.contains "append" then OpenMode.ab else OpenMode.wb

/-- Lines 130-133: `filelock` (wrapped around the whole request body) is the
per-path mutex exactly when neither `append` nor `nolock` is present;
otherwise it is a nullcontext. -/
def wholeRequestLock (keywords : List String) : Bool :=
  !(keywords.contains "append" || keywords.contains "nolock")

/-- Lines 130-133: `recordlock` (wrapped around each individual chunk write,
lines 144 and 151) is the per-path mutex exactly when `append` or `nolock`
is present; otherwise it is a nullcontext. -/
def perChunkLock (keywords : List String) : Bool :=
  keywords.contains "append" || keywords.contains "nolock"

/-- The file content right after `open(fspath, mode)` (line 141): append
mode keeps the existing content, write mode truncates; a file that did not
exist starts empty in either mode. -/
def openBase (mode : OpenMode) (fileExists : Bool) (prior : List Nat) : List Nat :=
  match mode, fileExists with
  | OpenMode.ab, true => prior
  | _, _ => []

/-- The outcome of one PUT request: the response sent, the filesystem side
effects in order, the resulting content of the target file (`none` when the
file still does not exist), and whether an exception escaped the body of
`with manage_locks` (and was then caught by the handler boundary at
line 158). -/
structure PutOutcome where
  response : Response
  effects : List Effect
  content : Option (List Nat)
  raised : Bool
deriving DecidableEq

/-- The PUT handler `do_PUT` (lines 116-161) on a request, given whether the
target file exists (`os.path.exists`, line 136) and its prior content.

Order of the source: the framing check of lines 117-119 runs before
`manage_locks`; inside the lock, the conflict check of lines 136-138 runs
before `os.makedirs` (line 139) and `open` (line 141); with a
`content-length` header the body is one `rfile.read(n)` (lines 142-146),
otherwise the chunked loop of lines 148-155 runs.  A decode error inside
the loop propagates out of the `with` blocks and becomes the 500 response
of line 161. -/
def doPut (req : Request) (fileExists : Bool) (prior : List Nat) : PutOutcome :=
  if !(req.contentLength.isSome || req.chunkedTE) then
    { response := Response.r400 noFramingBody
      effects := []
      content := if fileExists then some prior else none
      raised := false }
  else if fileExists && !(req.keywords.contains "overwrite" || req.keywords.contains "append") then
    { response := Response.r409 (conflictBody req.path)
      effects := []
      content := some prior
      raised := false }
  else
    match req.contentLength with
    | some n =>
      { response := Response.r200 (successBody req.path req.appendHeader)
        effects := [Effect.makedirs, Effect.openFile (openModeOf req.keywords),
          Effect.writeChunk (req.body.take n)]
        content := some (openBase (openModeOf req.keywords) fileExists prior ++ req.body.take n)
        raised := false }
    | none =>
      { response :=
          if (chunkedRead req.body).2.isSome then Response.r500
          else Response.r200 (successBody req.path req.appendHeader)
        effects := Effect.makedirs :: Effect.openFile (openModeOf req.keywords) ::
          (chunkedRead req.body).1.map Effect.writeChunk
        content := some (openBase (openModeOf req.keywords) fileExists prior ++
          (chunkedRead req.body).1.flatten)
        raised := (chunkedRead req.body).2.isSome }

/-- The lock table after a PUT request completes (response sent or
exception caught at line 158).  The 400 rejection of line 119 happens before
`with manage_locks`, so it leaves the table untouched; otherwise the table
changes per `manageLocksRun`, with the release step skipped when the body
raised. -/
def lockTableAfterPut (t : LockTable) (req : Request) (fileExists : Bool)
    (prior : List Nat) : LockTable :=
  if !(req.contentLength.isSome || req.chunkedTE) then t
  else manageLocksRun t req.path (doPut req fileExists prior).raised

/-! ### The plain directory listing of do_GET (webserver.py lines 105-106) -/

/-- Line 106: the listing joins the entries of `os.listdir(fspath)` with
newlines, suffixing `/` when `os.path.isdir(f)` holds.  The argument `f` is
the bare entry name, which the OS resolves relative to the process working
directory (the served root, per `os.chdir(root)` at line 180), not relative
to `fspath`. -/
def plainListingBody (isDirAtRoot : String → Bool) (entries : List String) : String :=
  String.intercalate "\n" (entries.map (fun f => if isDirAtRoot f then f ++ "/" else f)) ++ "\n"

/-- The `?plain` branch of `do_GET` (lines 105-106): status 200 with the
listing body.  `fspath` is the directory being listed; the code never passes
it to the directory test. -/
def doGetPlain (isDirAtRoot : String → Bool) (fspath : String)
    (entries : List String) : Nat × String :=
  (200, plainListingBody isDirAtRoot entries)

/-- Modelled from the spec: the intended `?plain` listing body, in which an
entry is suffixed with `/` exactly when it is a directory of the listed
directory, i.e. when `fspath/f` is a directory. -/
def specPlainListingBody (isDirAtRoot : String → Bool) (fspath : String)
    (entries : List String) : String :=
  String.intercalate "\n"
    (entries.map (fun f => if isDirAtRoot (fspath ++ "/" ++ f) then f ++ "/" else f)) ++ "\n"

/-! ### Concrete inputs used by counterexamples and witnesses -/

/-- A directory layout for the listing bug: the served root contains a
directory `a`, `a` contains a directory `b`, and the root has no entry named
`b`. -/
def isDirEx (s : String) : Bool :=
  s == "a" || s == "a/b"

/-- A chunked PUT to `/f` whose first size line is the non-hexadecimal byte
`x`. -/
def reqLeak : Request :=
  { path := "/f", contentLength := none, chunkedTE := true, appendHeader := false,
    keywords := [], body := [120, 10] }

/-- A two-byte Content-Length PUT to `/f` with no modifiers. -/
def reqOkSmall : Request :=
  { path := "/f", contentLength := some 2, chunkedTE := false, appendHeader := false,
    keywords := [], body := [104, 105] }

/-- A PUT to `/f` carrying both a Content-Length header and chunked transfer
encoding. -/
def reqBoth : Request :=
  { path := "/f", contentLength := some 2, chunkedTE := true, appendHeader := false,
    keywords := [], body := [104, 105] }

/-- The spec scenario: PUT `/a/b/file` with body `hello` and
`Content-Length: 5`, no modifiers. -/
def reqHello : Request :=
  { path := "/a/b/file", contentLength := some 5, chunkedTE := false, appendHeader := false,
    keywords := [], body := [104, 101, 108, 108, 111] }

/-- A PUT to `/f` declaring `Content-Length: 5` whose stream ends after two
bytes. -/
def reqTrunc : Request :=
  { path := "/f", contentLength := some 5, chunkedTE := false, appendHeader := false,
    keywords := [], body := [104, 105] }

/-- A PUT to `/w` that carries an HTTP header named `append` (no query
modifiers). -/
def reqUpd : Request :=
  { path := "/w", contentLength := some 1, chunkedTE := false, appendHeader := true,
    keywords := [], body := [104] }

/-- A PUT to `/f` with neither a Content-Length header nor chunked transfer
encoding. -/
def reqNeither : Request :=
  { path := "/f", contentLength := none, chunkedTE := false, appendHeader := false,
    keywords := [], body := [] }

/-! ### Helper lemmas: lock table -/

theorem tlookup_terase (t : LockTable) (p q : String) :
    tlookup (terase t p) q = if p = q then none else tlookup t q := by
  induction t with
  | nil => simp [terase, tlookup]
  | cons e t ih =>
    obtain ⟨a, c⟩ := e
    by_cases hap : a = p
    · subst hap
      rw [terase, if_pos rfl, ih, tlookup]
      by_cases hpq : a = q
      · simp [hpq]
      · simp [hpq]
    · rw [terase, if_neg hap, tlookup, tlookup]
      by_cases haq : a = q
      · subst haq
        have hpq : p ≠ a := fun he => hap he.symm
        simp [if_neg hpq, if_pos rfl]
      · simp only [if_neg haq]
        exact ih

theorem tlookup_tset (t : LockTable) (p q : String) (c : Nat) :
    tlookup (tset t p c) q = if p = q then some c else tlookup t q := by
  rw [tset, tlookup, tlookup_terase]
  by_cases hpq : p = q <;> simp [hpq]

theorem refcount_acquire_self (t : LockTable) (p : String) :
    refcount (acquire t p) p = refcount t p + 1 := by
  rw [refcount, acquire, tlookup_tset, if_pos rfl, refcount]
  rfl

theorem refcount_acquire_other (t : LockTable) (p q : String) (h : p ≠ q) :
    refcount (acquire t p) q = refcount t q := by
  rw [refcount, acquire, tlookup_tset, if_neg h, refcount]

theorem goodTable_nil : goodTable [] := by
  intro p c h
  simp [tlookup] at h

theorem goodTable_acquire (t : LockTable) (p : String) (h : goodTable t) :
    goodTable (acquire t p) := by
  intro q c hq
  rw [acquire, tlookup_tset] at hq
  by_cases hpq : p = q
  · rw [if_pos hpq] at hq
    have hce : (tlookup t p).getD 0 + 1 = c := by cases hq; rfl
    omega
  · rw [if_neg hpq] at hq
    exact h q c hq

theorem release_refcount (t : LockTable) (p : String) (t2 : LockTable)
    (hrel : release t p = some t2) (hgood : goodTable t) :
    (refcount t2 p + 1 = refcount t p ∧ ∀ q, p ≠ q → refcount t2 q = refcount t q) ∧
      goodTable t2 := by
  rw [release] at hrel
  cases hl : tlookup t p with
  | none => rw [hl] at hrel; exact absurd hrel (by simp)
  | some c =>
    rw [hl] at hrel
    have hc : 0 < c := hgood p c hl
    have ht2 : t2 = if c > 1 then tset t p (c - 1) else terase t p := by
      cases hrel
      rfl
    by_cases hc1 : c > 1
    · rw [ht2, if_pos hc1]
      refine ⟨⟨?_, ?_⟩, ?_⟩
      · rw [refcount, tlookup_tset, if_pos rfl, refcount, hl]
        simp
        omega
      · intro q hq
        rw [refcount, tlookup_tset, if_neg hq, refcount]
      · intro q d hd
        rw [tlookup_tset] at hd
        by_cases hpq : p = q
        · rw [if_pos hpq] at hd
          have : d = c - 1 := by cases hd; rfl
          omega
        · rw [if_neg hpq] at hd
          exact hgood q d hd
    · have hc1e : c = 1 := by omega
      rw [ht2, if_neg hc1]
      refine ⟨⟨?_, ?_⟩, ?_⟩
      · rw [refcount, tlookup_terase, if_pos rfl, refcount, hl]
        simp [hc1e]
      · intro q hq
        rw [refcount, tlookup_terase, if_neg hq, refcount]
      · intro q d hd
        rw [tlookup_terase] at hd
        by_cases hpq : p = q
        · rw [if_pos hpq] at hd
          exact absurd hd (by simp)
        · rw [if_neg hpq] at hd
          exact hgood q d hd

theorem runOps_good (t : LockTable) (ops : List LockOp) (t2 : LockTable)
    (hrun : runOps t ops = some t2) (hgood : goodTable t) : goodTable t2 := by
  induction ops generalizing t with
  | nil =>
    rw [runOps] at hrun
    cases hrun
    exact hgood
  | cons op ops ih =>
    cases op with
    | acq p =>
      rw [runOps] at hrun
      exact ih (acquire t p) hrun (goodTable_acquire t p hgood)
    | rel p =>
      rw [runOps] at hrun
      cases hrel : release t p with
      | none => rw [hrel] at hrun; exact absurd hrun (by simp)
      | some t3 =>
        rw [hrel] at hrun
        exact ih t3 hrun (release_refcount t p t3 hrel hgood).2

theorem runOps_refcount (t : LockTable) (ops : List LockOp) (t2 : LockTable)
    (hrun : runOps t ops = some t2) (hgood : goodTable t) (p : String) :
    refcount t2 p + countRel p ops = refcount t p + countAcq p ops := by
  induction ops generalizing t with
  | nil =>
    rw [runOps] at hrun
    cases hrun
    simp [countAcq, countRel]
  | cons op ops ih =>
    cases op with
    | acq q =>
      rw [runOps] at hrun
      have hrec := ih (acquire t q) hrun (goodTable_acquire t q hgood)
      rw [countAcq, countRel]
      by_cases hqp : q = p
      · subst hqp
        rw [refcount_acquire_self] at hrec
        have h1 : (if q = q then 1 else 0) = 1 := if_pos rfl
        rw [h1]
        omega
      · rw [refcount_acquire_other t q p hqp] at hrec
        have h0 : (if q = p then 1 else 0) = 0 := if_neg hqp
        rw [h0]
        omega
    | rel q =>
      rw [runOps] at hrun
      cases hrel : release t q with
      | none => rw [hrel] at hrun; exact absurd hrun (by simp)
      | some t3 =>
        rw [hrel] at hrun
        have hrc := release_refcount t q t3 hrel hgood
        have hrec := ih t3 hrun hrc.2
        rw [countAcq, countRel]
        by_cases hqp : q = p
        · subst hqp
          have hstep := hrc.1.1
          have h1 : (if q = q then 1 else 0) = 1 := if_pos rfl
          rw [h1]
          omega
        · have hoth := hrc.1.2 p hqp
          have h0 : (if q = p then 1 else 0) = 0 := if_neg hqp
          rw [h0]
          omega

theorem goodTable_isSome_iff (t : LockTable) (hgood : goodTable t) (p : String) :
    (tlookup t p).isSome ↔ 0 < refcount t p := by
  cases hl : tlookup t p with
  | none => simp [refcount, hl]
  | some c =>
    have := hgood p c hl
    simp [refcount, hl]
    omega

/-! ### Helper lemmas: chunked decoding -/

theorem chunkedRead_malformed (s : List Nat)
    (h : parseHexList (stripWS (readLine s).1) = none) :
    chunkedRead s = ([], some ChunkError.malformedSizeLine) := by
  rw [chunkedRead]
  split <;> simp_all

theorem chunkedRead_zero (s : List Nat)
    (h : parseHexList (stripWS (readLine s).1) = some 0) :
    chunkedRead s = ([], none) := by
  rw [chunkedRead]
  split <;> simp_all

theorem chunkedRead_step (s : List Nat) (k : Nat)
    (h : parseHexList (stripWS (readLine s).1) = some (k + 1)) :
    chunkedRead s =
      ((readLine s).2.take (k + 1) ::
          (chunkedRead ((readLine ((readLine s).2.drop (k + 1))).2)).1,
        (chunkedRead ((readLine ((readLine s).2.drop (k + 1))).2)).2) := by
  rw [chunkedRead]
  split <;> simp_all

theorem hexDigitVal_hexDigitChar (r : Nat) (h : r < 16) :
    hexDigitVal (hexDigitChar r) = some r := by
  interval_cases r <;> rfl

theorem hexDigitChar_props (r : Nat) (h : r < 16) :
    hexDigitChar r ≠ 10 ∧ isWS (hexDigitChar r) = false := by
  interval_cases r <;> exact ⟨by decide, by decide⟩

theorem toHexCore_acc (n : Nat) : ∀ acc : List Nat, toHexCore n acc = toHexCore n [] ++ acc := by
  induction n using Nat.strong_induction_on with
  | _ n ih =>
    intro acc
    match n with
    | 0 => simp [toHexCore]
    | m + 1 =>
      rw [toHexCore]
      rw [ih ((m + 1) / 16) (Nat.div_lt_self (Nat.succ_pos m) (by decide))]
      conv_rhs => rw [toHexCore,
        ih ((m + 1) / 16) (Nat.div_lt_self (Nat.succ_pos m) (by decide))]
      simp

theorem toHexCore_mem (n : Nat) : ∀ b ∈ toHexCore n [], ∃ r, r < 16 ∧ b = hexDigitChar r := by
  induction n using Nat.strong_induction_on with
  | _ n ih =>
    intro b hb
    match n with
    | 0 => simp [toHexCore] at hb
    | m + 1 =>
      rw [toHexCore, toHexCore_acc] at hb
      rcases List.mem_append.1 hb with hb1 | hb2
      · exact ih ((m + 1) / 16) (Nat.div_lt_self (Nat.succ_pos m) (by decide)) b hb1
      · have hb3 : b = hexDigitChar ((m + 1) % 16) := by simpa using hb2
        exact ⟨(m + 1) % 16, Nat.mod_lt _ (by decide), hb3⟩

theorem goParse_toHexCore (n : Nat) :
    ∀ a acc, goParse a (toHexCore n acc) =
      goParse (a * 16 ^ (toHexCore n []).length + n) acc := by
  induction n using Nat.strong_induction_on with
  | _ n ih =>
    intro a acc
    match n with
    | 0 => simp [toHexCore]
    | m + 1 =>
      have hlt : (m + 1) / 16 < m + 1 := Nat.div_lt_self (Nat.succ_pos m) (by decide)
      rw [toHexCore, ih _ hlt]
      have hlen : (toHexCore (m + 1) []).length = (toHexCore ((m + 1) / 16) []).length + 1 := by
        rw [toHexCore, toHexCore_acc]
        simp
      rw [hlen]
      have hgo : goParse (a * 16 ^ (toHexCore ((m + 1) / 16) []).length + (m + 1) / 16)
          (hexDigitChar ((m + 1) % 16) :: acc) =
          goParse ((a * 16 ^ (toHexCore ((m + 1) / 16) []).length + (m + 1) / 16) * 16 +
            (m + 1) % 16) acc := by
        rw [goParse, hexDigitVal_hexDigitChar _ (Nat.mod_lt _ (by decide))]
      rw [hgo]
      congr 1
      have hdm := Nat.div_add_mod (m + 1) 16
      ring_nf
      omega

theorem toHexCore_ne_nil (m : Nat) : toHexCore (m + 1) [] ≠ [] := by
  rw [toHexCore, toHexCore_acc]
  simp

theorem parseHexList_toHex (n : Nat) : parseHexList (toHex n) = some n := by
  match n with
  | 0 => rfl
  | m + 1 =>
    have hne : toHex (m + 1) = toHexCore (m + 1) [] := by
      simp [toHex]
    rw [hne]
    obtain ⟨d, ds, hds⟩ : ∃ d ds, toHexCore (m + 1) [] = d :: ds := by
      cases hc : toHexCore (m + 1) [] with
      | nil => exact absurd hc (toHexCore_ne_nil m)
      | cons d ds => exact ⟨d, ds, rfl⟩
    calc parseHexList (toHexCore (m + 1) [])
        = goParse 0 (toHexCore (m + 1) []) := by rw [hds]; rfl
      _ = goParse (0 * 16 ^ (toHexCore (m + 1) []).length + (m + 1)) [] := by
          have hg := goParse_toHexCore (m + 1) 0 []
          simpa using hg
      _ = some (m + 1) := by simp [goParse]

theorem readLine_append (l r : List Nat) (hl : ∀ b ∈ l, b ≠ 10) :
    readLine (l ++ 10 :: r) = (l ++ [10], r) := by
  induction l with
  | nil => simp [readLine]
  | cons a t ih =>
    have ha : a ≠ 10 := hl a (List.mem_cons_self a t)
    have ht : ∀ b ∈ t, b ≠ 10 := fun b hb => hl b (List.mem_cons_of_mem a hb)
    have ih2 := ih ht
    simp only [List.cons_append, readLine, if_neg ha, List.append_eq]
    rw [ih2]

theorem dropWhile_all_false (p : Nat → Bool) (l : List Nat) (h : ∀ b ∈ l, p b = false) :
    l.dropWhile p = l := by
  induction l with
  | nil => rfl
  | cons a t ih =>
    rw [List.dropWhile_cons, h a (List.mem_cons_self a t)]
    simp

theorem stripWS_hexline (l : List Nat) (h : ∀ b ∈ l, isWS b = false) :
    stripWS (l ++ [10]) = l := by
  unfold stripWS
  cases l with
  | nil => rfl
  | cons a t =>
    have ha : isWS a = false := h a (List.mem_cons_self a t)
    have hdw : ((a :: t) ++ [10]).dropWhile isWS = a :: (t ++ [10]) := by
      rw [List.cons_append, List.dropWhile_cons, ha]
      simp
    rw [hdw]
    have hrev : (a :: (t ++ [10])).reverse = 10 :: (a :: t).reverse := by
      simp
    rw [hrev, List.dropWhile_cons]
    have h10 : isWS 10 = true := by decide
    rw [h10]
    simp only [ite_true]
    rw [dropWhile_all_false isWS (a :: t).reverse (by
      intro b hb
      exact h b (List.mem_reverse.1 hb))]
    simp

theorem toHex_mem (n : Nat) : ∀ b ∈ toHex n, ∃ r, r < 16 ∧ b = hexDigitChar r := by
  intro b hb
  unfold toHex at hb
  by_cases hn : n = 0
  · rw [if_pos hn] at hb
    refine ⟨0, by decide, ?_⟩
    simpa [hexDigitChar] using hb
  · rw [if_neg hn] at hb
    exact toHexCore_mem n b hb

theorem toHex_no_newline (n : Nat) : ∀ b ∈ toHex n, b ≠ 10 := by
  intro b hb
  obtain ⟨r, hr, rfl⟩ := toHex_mem n b hb
  exact (hexDigitChar_props r hr).1

theorem toHex_no_ws (n : Nat) : ∀ b ∈ toHex n, isWS b = false := by
  intro b hb
  obtain ⟨r, hr, rfl⟩ := toHex_mem n b hb
  exact (hexDigitChar_props r hr).2

theorem sizeline_read (n : Nat) (r : List Nat) :
    readLine (toHex n ++ 10 :: r) = (toHex n ++ [10], r) :=
  readLine_append _ _ (toHex_no_newline n)

theorem sizeline_parse (n : Nat) (r : List Nat) :
    parseHexList (stripWS (readLine (toHex n ++ 10 :: r)).1) = some n := by
  rw [sizeline_read]
  simp only
  rw [stripWS_hexline _ (toHex_no_ws n), parseHexList_toHex]

theorem chunkedRead_encode (chunks : List (List Nat)) (h : ∀ c ∈ chunks, c ≠ []) :
    chunkedRead (encodeChunked chunks) = (chunks, none) := by
  induction chunks with
  | nil =>
    have hz : encodeChunked [] = toHex 0 ++ 10 :: [] := by
      simp [encodeChunked]
    rw [hz, chunkedRead_zero _ (sizeline_parse 0 [])]
  | cons c cs ih =>
    have hc : c ≠ [] := h c (List.mem_cons_self c cs)
    have hcs : ∀ x ∈ cs, x ≠ [] := fun x hx => h x (List.mem_cons_of_mem c hx)
    obtain ⟨k, hk⟩ : ∃ k, c.length = k + 1 := by
      cases hl : c.length with
      | zero => exact absurd (List.length_eq_zero.1 hl) hc
      | succ k => exact ⟨k, rfl⟩
    have henc : encodeChunked (c :: cs) =
        toHex c.length ++ 10 :: (c ++ 10 :: encodeChunked cs) := by
      simp [encodeChunked, encodeChunk]
    rw [henc, hk]
    have hparse := sizeline_parse (k + 1) (c ++ 10 :: encodeChunked cs)
    rw [chunkedRead_step _ k hparse]
    rw [sizeline_read]
    simp only
    have htake : (c ++ 10 :: encodeChunked cs).take (k + 1) = c := by
      rw [← hk]
      exact List.take_left c (10 :: encodeChunked cs)
    have hdrop : (c ++ 10 :: encodeChunked cs).drop (k + 1) = 10 :: encodeChunked cs := by
      rw [← hk]
      exact List.drop_left c (10 :: encodeChunked cs)
    rw [htake, hdrop]
    have hrl : readLine (10 :: encodeChunked cs) = ([10], encodeChunked cs) := by
      simp [readLine]
    rw [hrl]
    simp only
    rw [ih hcs]

/-! ### Helper lemmas: branch characterizations of doPut -/

theorem doPut_400 (req : Request) (fe : Bool) (prior : List Nat)
    (h1 : req.contentLength = none) (h2 : req.chunkedTE = false) :
    doPut req fe prior =
      { response := Response.r400 noFramingBody
        effects := []
        content := if fe then some prior else none
        raised := false } := by
  unfold doPut
  rw [h1, h2]
  rfl

theorem doPut_response_not400 (req : Request) (fe : Bool) (prior : List Nat)
    (hframe : (req.contentLength.isSome || req.chunkedTE) = true) :
    isR400 (doPut req fe prior).response = false := by
  unfold doPut
  rw [hframe]
  simp only [Bool.not_true]
  rw [if_neg (by simp)]
  split
  · rfl
  · split
    · rfl
    · cases hcr : (chunkedRead req.body).2.isSome
      · simp only [hcr]
        rfl
      · simp only [hcr]
        rfl

theorem doPut_conflict (req : Request) (fe : Bool) (prior : List Nat)
    (hframe : (req.contentLength.isSome || req.chunkedTE) = true)
    (hc : (fe && !(req.keywords.contains "overwrite" || req.keywords.contains "append")) = true) :
    doPut req fe prior =
      { response := Response.r409 (conflictBody req.path)
        effects := []
        content := some prior
        raised := false } := by
  unfold doPut
  rw [hframe]
  simp only [Bool.not_true]
  rw [if_neg (by simp), if_pos hc]

theorem doPut_cl_ok (req : Request) (fe : Bool) (prior : List Nat) (n : Nat)
    (hn : req.contentLength = some n)
    (hnc : (fe && !(req.keywords.contains "overwrite" || req.keywords.contains "append"))
      = false) :
    doPut req fe prior =
      { response := Response.r200 (successBody req.path req.appendHeader)
        effects := [Effect.makedirs, Effect.openFile (openModeOf req.keywords),
          Effect.writeChunk (req.body.take n)]
        content := some (openBase (openModeOf req.keywords) fe prior ++ req.body.take n)
        raised := false } := by
  unfold doPut
  rw [hn, hnc]
  simp only [Option.isSome_some, Bool.true_or, Bool.not_true]
  rw [if_neg (by simp), if_neg (by simp)]

/-! ### Claim theorems -/

/-- C4: for the lock table, an entry for a path exists in the table if and
only if its reference count is greater than 0; and for every path, any
balanced sequence of completed acquire/release steps starting from the
initial empty table leaves no entry for that path. -/
theorem C4_lock_table_invariant (ops : List LockOp) (t : LockTable) (p : String)
    (hrun : runOps [] ops = some t) :
    ((tlookup t p).isSome ↔ 0 < refcount t p) ∧
      (countAcq p ops = countRel p ops → tlookup t p = none) := by
  have hgood : goodTable t := runOps_good [] ops t hrun goodTable_nil
  refine ⟨goodTable_isSome_iff t hgood p, ?_⟩
  intro hbal
  have hcnt := runOps_refcount [] ops t hrun goodTable_nil p
  have hrc0 : refcount ([] : LockTable) p = 0 := rfl
  have h0 : refcount t p = 0 := by omega
  cases hl : tlookup t p with
  | none => rfl
  | some c =>
    have hpos := hgood p c hl
    rw [refcount, hl] at h0
    simp at h0
    omega

/-- C4 witness: the balanced sequence acquire, acquire, release, release on
the path `a` runs to completion from the empty table and leaves no entry for
`a`. -/
theorem C4_witness :
    tlookup ([] : LockTable) "a" = none ∧
      ((tlookup ([] : LockTable) "a").isSome ↔ 0 < refcount [] "a") := by
  have h := C4_lock_table_invariant
    [LockOp.acq "a", LockOp.acq "a", LockOp.rel "a", LockOp.rel "a"] [] "a" (by decide)
  exact ⟨h.2 (by decide), h.1⟩

/-- C1: evidence that the lock-table entry is NOT released on every exit
path.  For a chunked PUT whose first size line is malformed, the handler
responds 500 and the entry for the path is leaked with reference count 1
(the cleanup after `yield` in `manage_locks` is skipped when the with-body
raises); on the 200 path and the 409 path the entry is released. -/
theorem C1_lock_release_paths :
    (doPut reqLeak false []).response = Response.r500 ∧
    (doPut reqLeak false []).raised = true ∧
    lockTableAfterPut [] reqLeak false [] = [("/f", 1)] ∧
    (doPut reqOkSmall false []).response = Response.r200 (successBody "/f" false) ∧
    lockTableAfterPut [] reqOkSmall false [] = [] ∧
    (doPut reqOkSmall true []).response = Response.r409 (conflictBody "/f") ∧
    lockTableAfterPut [] reqOkSmall true [] = [] := by
  have hmal : chunkedRead [120, 10] = ([], some ChunkError.malformedSizeLine) :=
    chunkedRead_malformed _ (by decide)
  have hdo : doPut reqLeak false [] =
      { response := Response.r500
        effects := [Effect.makedirs, Effect.openFile OpenMode.wb]
        content := some []
        raised := true } := by
    unfold doPut reqLeak
    simp [hmal, openModeOf, openBase]
  have hlock : lockTableAfterPut [] reqLeak false [] = [("/f", 1)] := by
    unfold lockTableAfterPut
    rw [hdo]
    rfl
  refine ⟨by rw [hdo], by rw [hdo], hlock, rfl, rfl, rfl, rfl⟩

/-- C5: the upload policy of lines 125-135: `append` present gives append
mode, otherwise truncate/create mode; `append` or `nolock` present gives
per-chunk locking with no whole-request lock; otherwise the whole-request
lock is held and chunk writes take no additional lock. -/
theorem C5_policy (kw : List String) :
    (kw.contains "append" = true → openModeOf kw = OpenMode.ab) ∧
    (kw.contains "append" = false → openModeOf kw = OpenMode.wb) ∧
    ((kw.contains "append" = true ∨ kw.contains "nolock" = true) →
      wholeRequestLock kw = false ∧ perChunkLock kw = true) ∧
    (kw.contains "append" = false → kw.contains "nolock" = false →
      wholeRequestLock kw = true ∧ perChunkLock kw = false) := by
  refine ⟨fun h => by unfold openModeOf; rw [h]; rfl,
    fun h => by unfold openModeOf; rw [h]; rfl, ?_, ?_⟩
  · intro h
    unfold wholeRequestLock perChunkLock
    rcases h with h | h <;> rw [h] <;> simp
  · intro h1 h2
    unfold wholeRequestLock perChunkLock
    rw [h1, h2]
    exact ⟨rfl, rfl⟩

/-- C5 witness: concrete policy evaluations via the policy theorem. -/
theorem C5_witness :
    openModeOf ["append"] = OpenMode.ab ∧ perChunkLock ["append"] = true ∧
      wholeRequestLock [] = true :=
  ⟨(C5_policy ["append"]).1 (by decide),
    ((C5_policy ["append"]).2.2.1 (Or.inl (by decide))).2,
    ((C5_policy []).2.2.2 (by decide) (by decide)).1⟩

/-- C9: evidence that the `?plain` listing does not suffix every directory
entry with `/`.  With the root containing directory `a`, `a` containing
directory `b`, and no entry `b` at the root, listing `a` emits `b` without
the slash, because `os.path.isdir` is applied to the bare entry name
(resolved at the served root), while the intended listing emits `b/`. -/
theorem C9_plain_listing_bug :
    doGetPlain isDirEx "a" ["b"] = (200, "b\n") ∧
    specPlainListingBody isDirEx "a" ["b"] = "b/\n" ∧
    plainListingBody isDirEx ["b"] ≠ specPlainListingBody isDirEx "a" ["b"] ∧
    isDirEx "a/b" = true := by
  refine ⟨rfl, rfl, by decide, rfl⟩

/-- C2 counterexample: a PUT carrying both a Content-Length header and
chunked transfer encoding is not rejected with 400; it succeeds with 200. -/
theorem C2_both_present_not_rejected :
    reqBoth.contentLength.isSome = true ∧ reqBoth.chunkedTE = true ∧
    isR400 (doPut reqBoth false []).response = false ∧
    (doPut reqBoth false []).response = Response.r200 (successBody "/f" false) :=
  ⟨rfl, rfl, rfl, rfl⟩

/-- C2 (amended): a PUT is rejected with 400 if and only if neither a
Content-Length header nor chunked transfer encoding is present, and in that
case the rejection happens before any body framing or side effect (empty
effect trace, file untouched). -/
theorem C2_framing_rejection (req : Request) (fe : Bool) (prior : List Nat) :
    (isR400 (doPut req fe prior).response = true ↔
      (req.contentLength = none ∧ req.chunkedTE = false)) ∧
    (req.contentLength = none → req.chunkedTE = false →
      doPut req fe prior =
        { response := Response.r400 noFramingBody
          effects := []
          content := if fe then some prior else none
          raised := false }) := by
  constructor
  · constructor
    · intro h400
      by_cases hcl : req.contentLength = none
      · by_cases hte : req.chunkedTE = false
        · exact ⟨hcl, hte⟩
        · have hte2 : req.chunkedTE = true := by
            cases hb : req.chunkedTE
            · exact absurd hb hte
            · rfl
          have hnot := doPut_response_not400 req fe prior (by rw [hte2]; simp)
          rw [hnot] at h400
          exact absurd h400 (by decide)
      · have hsome : req.contentLength.isSome = true := by
          cases hb : req.contentLength
          · exact absurd hb hcl
          · rfl
        have hnot := doPut_response_not400 req fe prior (by rw [hsome]; simp)
        rw [hnot] at h400
        exact absurd h400 (by decide)
    · intro h
      rw [doPut_400 req fe prior h.1 h.2]
      rfl
  · intro h1 h2
    exact doPut_400 req fe prior h1 h2

/-- C2 witness: a PUT with neither framing header is rejected with 400 and
leaves no side effect. -/
theorem C2_witness :
    doPut reqNeither false [] =
      { response := Response.r400 noFramingBody
        effects := []
        content := none
        raised := false } :=
  (C2_framing_rejection reqNeither false []).2 rfl rfl

/-- C3: a well-framed PUT whose target file exists and whose modifier set
contains neither `overwrite` nor `append` is rejected with 409, with an
empty effect trace (no directory creation, no file opened or truncated) and
the file content unchanged. -/
theorem C3_conflict_rejected (req : Request) (prior : List Nat)
    (hframe : (req.contentLength.isSome || req.chunkedTE) = true)
    (hov : req.keywords.contains "overwrite" = false)
    (hap : req.keywords.contains "append" = false) :
    doPut req true prior =
      { response := Response.r409 (conflictBody req.path)
        effects := []
        content := some prior
        raised := false } :=
  doPut_conflict req true prior hframe (by rw [hov, hap]; rfl)

/-- C3 witness: a concrete no-modifier PUT to an existing file is rejected
with 409 and the file keeps its prior content. -/
theorem C3_witness :
    doPut reqOkSmall true [107] =
      { response := Response.r409 (conflictBody "/f")
        effects := []
        content := some [107]
        raised := false } :=
  C3_conflict_rejected reqOkSmall [107] rfl rfl rfl

/-- C6 counterexample: the spec scenario (PUT `/a/b/file`, body `hello`,
`Content-Length: 5`, no modifiers, target absent) succeeds, but the action
word in the body is `uploaded`, not `created`. -/
theorem C6_no_created_word :
    (doPut reqHello false []).response = Response.r200 "File \"/a/b/file\" uploaded.\n" ∧
    (doPut reqHello false []).content = some [104, 101, 108, 108, 111] ∧
    "File \"/a/b/file\" uploaded.\n" ≠ "File \"/a/b/file\" created.\n" :=
  ⟨rfl, rfl, by decide⟩

/-- C6 (amended): every successful PUT responds 200 with plain-text body
exactly `File "<path>" <updated|uploaded>.\n`, where `updated` is chosen
exactly when a header named `append` is present among the HTTP headers
(independent of file existence and open mode); the words `created` and
`replaced` are never produced. -/
theorem C6_success_body_form (req : Request) (fe : Bool) (prior : List Nat) (b : String)
    (h : (doPut req fe prior).response = Response.r200 b) :
    b = "File \"" ++ req.path ++ "\" " ++
      (if req.appendHeader then "updated" else "uploaded") ++ ".\n" := by
  unfold doPut at h
  split at h
  · simp at h
  · split at h
    · simp at h
    · split at h
      · have hb : successBody req.path req.appendHeader = b := by
          simpa using h
        rw [← hb]
        rfl
      · split at h
        · simp at h
        · have hb : successBody req.path req.appendHeader = b := by
            simpa using h
          rw [← hb]
          rfl

/-- C6 witness: a PUT that carries an HTTP header named `append` gets the
action word `updated`. -/
theorem C6_witness :
    successBody "/w" true = "File \"" ++ "/w" ++ "\" " ++
      (if true then "updated" else "uploaded") ++ ".\n" :=
  C6_success_body_form reqUpd false [] (successBody "/w" true) rfl

/-- C7 counterexample: a PUT declaring `Content-Length: 5` whose stream
holds only 2 bytes succeeds with 200 and writes the 2 truncated bytes; no
TruncatedBody condition and no 500 response exists. -/
theorem C7_truncated_body_accepted :
    reqTrunc.contentLength = some 5 ∧
    reqTrunc.body.length = 2 ∧
    (doPut reqTrunc false []).response = Response.r200 (successBody "/f" false) ∧
    (doPut reqTrunc false []).raised = false ∧
    (doPut reqTrunc false []).content = some [104, 105] ∧
    ([104, 105] : List Nat).length ≠ 5 :=
  ⟨rfl, rfl, rfl, rfl, rfl, by decide⟩

/-- C7 (amended): in Content-Length framing the executor performs a single
read returning `min(declared, available)` bytes (`take n` of the stream) and
writes that one chunk; the request succeeds with 200 even when the stream
ends before the declared length, and the truncated content is what is
written. -/
theorem C7_content_length_single_read (req : Request) (fe : Bool) (prior : List Nat)
    (n : Nat) (hn : req.contentLength = some n)
    (hnc : (fe && !(req.keywords.contains "overwrite" || req.keywords.contains "append"))
      = false) :
    doPut req fe prior =
      { response := Response.r200 (successBody req.path req.appendHeader)
        effects := [Effect.makedirs, Effect.openFile (openModeOf req.keywords),
          Effect.writeChunk (req.body.take n)]
        content := some (openBase (openModeOf req.keywords) fe prior ++ req.body.take n)
        raised := false } :=
  doPut_cl_ok req fe prior n hn hnc

/-- C7 witness: the amended statement at the truncated request. -/
theorem C7_witness :
    doPut reqTrunc false [] =
      { response := Response.r200 (successBody reqTrunc.path reqTrunc.appendHeader)
        effects := [Effect.makedirs, Effect.openFile (openModeOf reqTrunc.keywords),
          Effect.writeChunk (reqTrunc.body.take 5)]
        content := some (openBase (openModeOf reqTrunc.keywords) false [] ++ reqTrunc.body.take 5)
        raised := false } :=
  C7_content_length_single_read reqTrunc false [] 5 rfl rfl

/-- C8: the chunked decoder inverts the chunked encoding (hexadecimal size
line, that many payload bytes, one trailing line per chunk, zero-size
terminator): decoding an encoded chunk list returns exactly those chunks
with no error; a non-hexadecimal size line yields the malformed-size-line
error, which the handler turns into a 500 response. -/
theorem C8_chunked_decoder (chunks : List (List Nat)) (h : ∀ c ∈ chunks, c ≠ []) :
    chunkedRead (encodeChunked chunks) = (chunks, none) ∧
    chunkedRead [120, 10] = ([], some ChunkError.malformedSizeLine) ∧
    (doPut reqLeak false []).response = Response.r500 := by
  have hmal : chunkedRead [120, 10] = ([], some ChunkError.malformedSizeLine) :=
    chunkedRead_malformed _ (by decide)
  refine ⟨chunkedRead_encode chunks h, hmal, ?_⟩
  unfold doPut reqLeak
  simp [hmal]

/-- C8 witness: decoding the encoding of the chunks `foo` and `bar`. -/
theorem C8_witness :
    chunkedRead (encodeChunked [[102, 111, 111], [98, 97, 114]]) =
      ([[102, 111, 111], [98, 97, 114]], none) :=
  (C8_chunked_decoder [[102, 111, 111], [98, 97, 114]] (by decide)).1

/-- C10: a PUT carrying both a Content-Length header and chunked transfer
encoding is not rejected; it behaves exactly like the same request without
the chunked indicator, and (when not a conflict) its body is consumed by a
single read of the declared number of bytes, so the chunked decoder is never
executed. -/
theorem C10_content_length_precedence (req : Request) (fe : Bool) (prior : List Nat)
    (n : Nat) (hn : req.contentLength = some n) (hte : req.chunkedTE = true) :
    isR400 (doPut req fe prior).response = false ∧
    doPut req fe prior = doPut { req with chunkedTE := false } fe prior ∧
    ((fe && !(req.keywords.contains "overwrite" || req.keywords.contains "append")) = false →
      (doPut req fe prior).effects =
        [Effect.makedirs, Effect.openFile (openModeOf req.keywords),
          Effect.writeChunk (req.body.take n)]) := by
  have hframe : (req.contentLength.isSome || req.chunkedTE) = true := by
    rw [hn]
    rfl
  have hframe2 : (({ req with chunkedTE := false } : Request).contentLength.isSome ||
      ({ req with chunkedTE := false } : Request).chunkedTE) = true := by
    show (req.contentLength.isSome || false) = true
    rw [hn]
    rfl
  refine ⟨doPut_response_not400 req fe prior hframe, ?_, ?_⟩
  · by_cases hc : (fe && !(req.keywords.contains "overwrite" ||
        req.keywords.contains "append")) = true
    · rw [doPut_conflict req fe prior hframe hc,
        doPut_conflict { req with chunkedTE := false } fe prior hframe2 hc]
    · have hcf : (fe && !(req.keywords.contains "overwrite" ||
          req.keywords.contains "append")) = false := by
        cases hb : (fe && !(req.keywords.contains "overwrite" ||
          req.keywords.contains "append"))
        · rfl
        · exact absurd hb hc
      rw [doPut_cl_ok req fe prior n hn hcf,
        doPut_cl_ok { req with chunkedTE := false } fe prior n hn hcf]
  · intro hcf
    rw [doPut_cl_ok req fe prior n hn hcf]

/-- C10 witness: the request with both framing indicators behaves exactly
like the same request without the chunked indicator. -/
theorem C10_witness :
    doPut reqBoth false [] = doPut { reqBoth with chunkedTE := false } false [] :=
  (C10_content_length_precedence reqBoth false [] 2 rfl rfl).2.1

end Webserver
